import Mathlib

/-!
Verification of the rusty_chips CHIP-8 emulator.

Shallow embedding of the relevant Rust sources:
  * `src/chip8.rs`   — the `Chip8` machine state, `cycle`, `draw`, `ret`,
    `sp_addr`, `load_rom`, `load_bytes_at`, `handle_message`, `init_chip8`.
  * `src/vram.rs`    — the video memory actor, modelled as a pixel function
    plus the screen-size enum (`get_screen_size`).
  * `src/counter.rs` — the 60Hz countdown actor (`run_counter`).
  * `src/fuse.rs`    — the liveness flag actor (`run_fuse`, `alive`, `blow`).
  * `src/util.rs`    — clock-rate parsing (`input_to_hertz`, `hz_to_secs`).

Conventions of the embedding:
  * Machine integers are `Nat` with explicit `% 256` / `% 65536` where the
    Rust code uses wrapping operations; unchecked Rust arithmetic that can
    overflow or underflow (which panics in a debug build) is modelled with
    checked operations in the `Except String` monad, as are out-of-bounds
    array accesses and the `todo!` macro.
  * The actor channels (tokio mpsc/broadcast) are modelled by keeping the
    actor state inline: the timer actors become two `Nat` fields, the input
    actor a `Nat → Bool` snapshot, the VRAM actor a `Nat → Nat → Bool`
    pixel function, and the random byte of `Cxkk` an oracle field.
  * Rust `f64` arithmetic in `util.rs` is modelled by exact rationals.
-/

namespace RustyChips

/-- Point update of a byte function (models writing one array cell). -/
def setMem (m : Nat → Nat) (idx v : Nat) : Nat → Nat :=
  fun j => if j = idx then v else m j

/-- Point update of the register file. -/
def setReg (r : Nat → Nat) (idx v : Nat) : Nat → Nat :=
  fun j => if j = idx then v else r j

/-- Point update of the pixel function (models `VRAMMessage::SetPixel`). -/
def setPix (p : Nat → Nat → Bool) (x y : Nat) (v : Bool) : Nat → Nat → Bool :=
  fun a b => if a = x ∧ b = y then v else p a b

/-- Checked u8 addition: Rust `+=` on a `u8` panics on overflow in a debug
build. -/
def chkAddU8 (a b : Nat) : Except String Nat :=
  if a + b ≤ 255 then .ok (a + b) else .error (r"attempt to add with overflow")

/-- Checked u16 addition: Rust `+=` on a `u16` panics on overflow in a debug
build. -/
def chkAddU16 (a b : Nat) : Except String Nat :=
  if a + b ≤ 65535 then .ok (a + b) else .error (r"attempt to add with overflow")

/-- Checked subtraction: Rust `-` / `-=` on an unsigned integer panics on
underflow in a debug build. -/
def chkSub (a b : Nat) : Except String Nat :=
  if b ≤ a then .ok (a - b) else .error (r"attempt to subtract with overflow")

/-- Screen sizes of `vram.rs` (`ScreenSize::L` is 128x64, `ScreenSize::S`
is 64x32). -/
inductive ScreenSize where
  | L : ScreenSize
  | S : ScreenSize

/-- `VRAMHandle::get_screen_size`. -/
def ScreenSize.get_screen_size : ScreenSize → Nat × Nat
  | .L => (128, 64)
  | .S => (64, 32)

/-- The `Chip8` struct of `chip8.rs`, with the attached actors inlined:
`memory` is the 4096-byte RAM, `vS` the 16 8-bit registers, `i` the index
register, `pc` the program counter, `sp` the `u8` stack pointer, `running`
the execution flag.  `sound_timer`/`delay_timer` hold the current values of
the two counter actors, `keys` is the input actor's keypad snapshot,
`screen`/`video` the VRAM actor, and `randByte` the byte that
`rand::random::<u8>()` returns this cycle. -/
structure Chip8 where
  memory : Nat → Nat
  vS : Nat → Nat
  i : Nat
  pc : Nat
  sp : Nat
  running : Bool
  sound_timer : Nat
  delay_timer : Nat
  keys : Nat → Bool
  screen : ScreenSize
  video : Nat → Nat → Bool
  randByte : Nat

/-- `Chip8::new`: zeroed memory and registers, `i = 0x50`, `pc = 0x200`,
`sp = 0`, not running.  The fresh counter actors start at 0, the input
actor starts with no key pressed, and the VRAM starts cleared; `main.rs`
always creates the VRAM with `ScreenSize::S`. -/
def Chip8.new : Chip8 where
  memory := fun _ => 0
  vS := fun _ => 0
  i := 0x50
  pc := 0x200
  sp := 0
  running := false
  sound_timer := 0
  delay_timer := 0
  keys := fun _ => false
  screen := ScreenSize.S
  video := fun _ _ => false
  randByte := 0

/-- Read one RAM byte; `memory` is a `[u8; 4096]`, so an index past 4095
panics. -/
def rdMem (c : Chip8) (idx : Nat) : Except String Nat :=
  if idx < 4096 then .ok (c.memory idx) else .error (r"index out of bounds")

/-- Write one RAM byte; `memory` is a `[u8; 4096]`, so an index past 4095
panics. -/
def wrMem (c : Chip8) (idx v : Nat) : Except String Chip8 :=
  if idx < 4096 then .ok { c with memory := setMem c.memory idx v }
  else .error (r"index out of bounds")

/-- `Chip8::load_bytes_at`: copy `bytes` (truncated to 3584 = 0x1000 - 0x200
bytes) into RAM starting at `addr`. -/
def Chip8.load_bytes_at (c : Chip8) (bytes : List Nat) (addr : Nat) : Chip8 :=
  let bl := bytes.length
  let idx := if bl < 3584 then bl else 3584
  { c with memory := fun j =>
      if addr ≤ j ∧ j < addr + idx then bytes.getD (j - addr) 0 else c.memory j }

/-- `Chip8::reset_pc`. -/
def Chip8.reset_pc (c : Chip8) : Chip8 :=
  { c with pc := 0x200 }

/-- `Chip8::load_rom`: copy the ROM to 0x200 and reset the program
counter. -/
def Chip8.load_rom (c : Chip8) (rom : List Nat) : Chip8 :=
  (c.load_bytes_at rom 0x200).reset_pc

/-- The `Chip8Message` control enum of `chip8.rs`. -/
inductive Chip8Message where
  | ExecToggle : Chip8Message
  | ExecPause : Chip8Message
  | ExecStop : Chip8Message
  | ExecStart : Chip8Message
  | LoadROM : List Nat → Chip8Message

/-- `Chip8::handle_message`. -/
def Chip8.handle_message (c : Chip8) (msg : Chip8Message) : Chip8 :=
  match msg with
  | .ExecPause => { c with running := false }
  | .ExecStop => { c with running := false, pc := 0x200 }
  | .ExecStart => { c with running := true }
  | .ExecToggle => { c with running := !c.running }
  | .LoadROM rom => c.load_rom rom

/-- `Chip8::sp_addr`: big-endian 16-bit read at `memory[sp]`,
`memory[sp + 1]`. -/
def Chip8.sp_addr (c : Chip8) : Except String Nat := do
  let highbits ← rdMem c c.sp
  let lowbits ← rdMem c (c.sp + 1)
  .ok ((highbits <<< 8) ||| lowbits)

/-- `Chip8::ret`: set `pc` to the address at the top of the stack, then
subtract 2 from the `u8` stack pointer (which underflows when `sp < 2`). -/
def Chip8.ret (c : Chip8) : Except String Chip8 := do
  let addr ← c.sp_addr
  let sp' ← chkSub c.sp 2
  .ok { c with pc := addr, sp := sp' }

/-- The bit-mask table of `Chip8::draw`. -/
def masks : List Nat := [128, 64, 32, 16, 8, 4, 2, 1]

/-- Inner column loop of `Chip8::draw`: starting at column `col` with `fuel`
iterations left (the source iterates `masks.iter().enumerate()`, 8 columns),
XOR the sprite byte `b` into row `y`, recording a collision when a lit pixel
is cleared, and break out of the loop after drawing a pixel in the last
screen column (`(x + 1) == sx`). -/
def drawColsAux (sx tx y b : Nat) :
    Nat → Nat → (Nat → Nat → Bool) → Bool → ((Nat → Nat → Bool) × Bool)
  | 0, _, pix, coll => (pix, coll)
  | fuel + 1, col, pix, coll =>
    let x := (tx + col) % sx
    let bmask := (masks.getD col 0) &&& b
    let cur := pix x y
    let pix1 := if bmask > 0 then setPix pix x y (!cur) else pix
    let coll1 := if bmask > 0 && cur then true else coll
    if x + 1 = sx then (pix1, coll1)
    else drawColsAux sx tx y b fuel (col + 1) pix1 coll1

/-- Outer row loop of `Chip8::draw`: one sprite byte per row, wrapping the
row coordinate modulo the screen height and breaking out after drawing a row
in the last screen row (`(y + 1) == sy`). -/
def drawRowsAux (sx sy tx ty : Nat) :
    List Nat → Nat → (Nat → Nat → Bool) → Bool → ((Nat → Nat → Bool) × Bool)
  | [], _, pix, coll => (pix, coll)
  | b :: rest, row, pix, coll =>
    let y := (row + ty) % sy
    if y < sy then
      let r := drawColsAux sx tx y b 8 0 pix coll
      if y + 1 = sy then r
      else drawRowsAux sx sy tx ty rest (row + 1) r.1 r.2
    else drawRowsAux sx sy tx ty rest (row + 1) pix coll

/-- `Chip8::draw`: no-op when not running; otherwise wrap the start
coordinates modulo the screen size, XOR the sprite rows into video memory,
and finally set `VF` to the collision flag. -/
def Chip8.draw (c : Chip8) (vx vy : Nat) (bytes : List Nat) : Chip8 :=
  if !c.running then c
  else
    let sx := c.screen.get_screen_size.1
    let sy := c.screen.get_screen_size.2
    let tx := vx % sx
    let ty := vy % sy
    let r := drawRowsAux sx sy tx ty bytes 0 c.video false
    { c with video := r.1, vS := setReg c.vS 15 (if r.2 then 1 else 0) }

/-- The decode/execute `match opcode` block of `Chip8::cycle` (everything
between fetch and the trailing `self.pc += 2`).  `unknown_opcode` only logs
a warning, so unmatched opcodes leave the state unchanged. -/
def Chip8.execute (c : Chip8) (opcode : Nat) : Except String Chip8 :=
  if opcode = 0x00E0 then
    .ok { c with video := fun _ _ => false }
  else if opcode = 0x00EE then
    c.ret
  else if 0x1000 ≤ opcode ∧ opcode ≤ 0x1FFF then do
    let t ← chkSub (opcode &&& 0x0FFF) 2
    .ok { c with pc := t }
  else if 0x2000 ≤ opcode ∧ opcode ≤ 0x2FFF then do
    let addr := 0x0FFF &&& opcode
    let lowbits := c.pc &&& 0x00FF
    let highbits := (0xFF00 &&& c.pc) >>> 8
    let sp' ← chkAddU8 c.sp 2
    let c1 := { c with sp := sp' }
    let c2 ← wrMem c1 sp' highbits
    let c3 ← wrMem c2 (sp' + 1) lowbits
    let t ← chkSub addr 2
    .ok { c3 with pc := t }
  else if 0x3000 ≤ opcode ∧ opcode ≤ 0x3FFF then
    let x := (0x0F00 &&& opcode) >>> 8
    let kk := 0x00FF &&& opcode
    .ok (if c.vS x = kk then { c with pc := c.pc + 2 } else c)
  else if 0x4000 ≤ opcode ∧ opcode ≤ 0x4FFF then
    let x := (0x0F00 &&& opcode) >>> 8
    let kk := 0x00FF &&& opcode
    .ok (if c.vS x ≠ kk then { c with pc := c.pc + 2 } else c)
  else if 0x5000 ≤ opcode ∧ opcode ≤ 0x5FFF then
    let ending := opcode &&& 0x000F
    if ending ≠ 0 then .ok c
    else
      let vx := (0x0F00 &&& opcode) >>> 8
      let vy := (0x00F0 &&& opcode) >>> 4
      .ok (if c.vS vx = c.vS vy then { c with pc := c.pc + 2 } else c)
  else if 0x6000 ≤ opcode ∧ opcode ≤ 0x6FFF then
    let x := (0x0F00 &&& opcode) >>> 8
    let kk := 0x00FF &&& opcode
    .ok { c with vS := setReg c.vS x kk }
  else if 0x7000 ≤ opcode ∧ opcode ≤ 0x7FFF then
    let x := (0x0F00 &&& opcode) >>> 8
    let kk := 0x00FF &&& opcode
    .ok { c with vS := setReg c.vS x ((c.vS x + kk) % 256) }
  else if 0x8000 ≤ opcode ∧ opcode ≤ 0x8FFF then
    let x := (0x0F00 &&& opcode) >>> 8
    let y := (0x00F0 &&& opcode) >>> 4
    let ending := 0x000F &&& opcode
    if ending = 0x0 then
      .ok { c with vS := setReg c.vS x (c.vS y) }
    else if ending = 0x1 then
      .ok { c with vS := setReg c.vS x (c.vS x ||| c.vS y) }
    else if ending = 0x2 then
      .ok { c with vS := setReg c.vS x (c.vS x &&& c.vS y) }
    else if ending = 0x3 then
      .ok { c with vS := setReg c.vS x (c.vS x ^^^ c.vS y) }
    else if ending = 0x4 then
      -- the sum is computed in u16, stored truncated to u8; VF is set to 1
      -- on overflow but (unlike the spec) never cleared to 0
      let res := c.vS x + c.vS y
      let toStore := res % 256
      let c1 := if res > 255 then { c with vS := setReg c.vS 15 1 } else c
      .ok { c1 with vS := setReg c1.vS x toStore }
    else if ending = 0x5 then
      let c1 := if c.vS x > c.vS y then { c with vS := setReg c.vS 15 1 } else c
      .ok { c1 with vS := setReg c1.vS x ((c1.vS x + 256 - c1.vS y % 256) % 256) }
    else if ending = 0x6 then
      let yv := c.vS y
      let flag := 1 &&& yv
      let c1 := { c with vS := setReg c.vS 15 flag }
      .ok { c1 with vS := setReg c1.vS x (yv >>> 1) }
    else if ending = 0x7 then
      let xv := c.vS x
      let yv := c.vS y
      let c1 := if xv > yv then { c with vS := setReg c.vS 15 0 }
                else { c with vS := setReg c.vS 15 1 }
      .ok { c1 with vS := setReg c1.vS x ((yv + 256 - xv % 256) % 256) }
    else if ending = 0xE then
      let yv := c.vS y
      let m := 0x80 &&& yv
      let msb := ((m <<< 1) ||| (m >>> 7)) % 256
      let c1 := { c with vS := setReg c.vS 15 msb }
      .ok { c1 with vS := setReg c1.vS x ((yv <<< 1) % 256) }
    else .ok c
  else if 0x9000 ≤ opcode ∧ opcode ≤ 0x9FFF then
    let ending := 0x000F &&& opcode
    let x := (0x0F00 &&& opcode) >>> 8
    let y := (0x00F0 &&& opcode) >>> 4
    if ending = 0x0 then
      .ok (if c.vS x ≠ c.vS y then { c with pc := c.pc + 2 } else c)
    else .ok c
  else if 0xA000 ≤ opcode ∧ opcode ≤ 0xAFFF then
    .ok { c with i := opcode &&& 0x0FFF }
  else if 0xB000 ≤ opcode ∧ opcode ≤ 0xBFFF then
    .ok { c with pc := (0xFFF &&& opcode) + c.vS 0 }
  else if 0xC000 ≤ opcode ∧ opcode ≤ 0xCFFF then
    let x := (0x0F00 &&& opcode) >>> 8
    let nn := 0xFF &&& opcode
    .ok { c with vS := setReg c.vS x (c.randByte &&& nn) }
  else if 0xD000 ≤ opcode ∧ opcode ≤ 0xDFFF then do
    let vx := c.vS ((0xF00 &&& opcode) >>> 8)
    let vy := c.vS ((0x0F0 &&& opcode) >>> 4)
    let n := 0xF &&& opcode
    let sprite ← (List.range n).mapM (fun k => rdMem c (c.i + k))
    .ok (c.draw vx vy sprite)
  else if 0xE000 ≤ opcode ∧ opcode ≤ 0xEFFF then
    let x := (0x0F00 &&& opcode) >>> 8
    let nn := 0x00FF &&& opcode
    if nn = 0x9E then
      let key := c.vS x
      .ok (if c.keys key then { c with pc := c.pc + 2 } else c)
    else if nn = 0xA1 then
      let key := c.vS x
      .ok (if !c.keys key then { c with pc := c.pc + 2 } else c)
    else .ok c
  else if 0xF000 ≤ opcode ∧ opcode ≤ 0xFFFF then
    let x := (0x0F00 &&& opcode) >>> 8
    let nn := 0x00FF &&& opcode
    if nn = 0x7 then
      .ok { c with vS := setReg c.vS x c.delay_timer }
    else if nn = 0xA then
      -- the source reads: todo!("Waiting for input") — this panics
      .error (r"not yet implemented: Waiting for input")
    else if nn = 0x15 then
      .ok { c with delay_timer := c.vS x }
    else if nn = 0x18 then
      .ok { c with sound_timer := c.vS x }
    else if nn = 0x1E then do
      let i' ← chkAddU16 c.i (c.vS x)
      .ok { c with i := i' }
    else if nn = 0x29 then
      .ok { c with i := 0x50 + 5 * c.vS x }
    else if nn = 0x33 then do
      let value := c.vS x
      let ones := value % 10
      let tens := (value / 10) % 10
      let huns := value / 100
      let c1 ← wrMem c c.i huns
      let c2 ← wrMem c1 (c.i + 1) tens
      wrMem c2 (c.i + 2) ones
    else if nn = 0x55 then
      (List.range (x + 1)).foldlM (fun cc idx => wrMem cc (cc.i + idx) (cc.vS idx)) c
    else if nn = 0x65 then do
      let c1 ← (List.range (x + 1)).foldlM
        (fun cc idx => do
          let v ← rdMem cc (cc.i + idx)
          .ok { cc with vS := setReg cc.vS idx v }) c
      let i' ← chkAddU16 c1.i (x + 1)
      .ok { c1 with i := i' }
    else .ok c
  else .ok c

/-- `Chip8::cycle`: when running, fetch the opcode at `pc` (resetting an
out-of-range `pc` to 0x200 and wrapping the low fetch byte of `pc = 0x0FFF`
around to 0x200), execute it, then advance `pc` by 2. -/
def Chip8.cycle (c : Chip8) : Except String Chip8 := do
  if !c.running then .ok c
  else
    let c := if c.pc ≥ 0x1000 then { c with pc := 0x200 } else c
    let highbits := c.memory c.pc
    let lowbits := if c.pc = 0x0FFF then c.memory 0x200 else c.memory (c.pc + 1)
    let opcode := (highbits <<< 8) ||| lowbits
    let c' ← c.execute opcode
    let pc' ← chkAddU16 c'.pc 2
    .ok { c' with pc := pc' }

/-- The built-in fontset loaded at 0x50 by `init_chip8`. -/
def fontset : List Nat :=
  [0xF0, 0x90, 0x90, 0x90, 0xF0,
   0x20, 0x60, 0x20, 0x20, 0x70,
   0xF0, 0x10, 0xF0, 0x80, 0xF0,
   0xF0, 0x10, 0xF0, 0x10, 0xF0,
   0x90, 0x90, 0xF0, 0x10, 0x10,
   0xF0, 0x80, 0xF0, 0x10, 0xF0,
   0xF0, 0x80, 0xF0, 0x90, 0xF0,
   0xF0, 0x10, 0x20, 0x40, 0x40,
   0xF0, 0x90, 0xF0, 0x90, 0xF0,
   0xF0, 0x90, 0xF0, 0x10, 0xF0,
   0xF0, 0x90, 0xF0, 0x90, 0x90,
   0xE0, 0x90, 0xE0, 0x90, 0xE0,
   0xF0, 0x80, 0x80, 0x80, 0xF0,
   0xE0, 0x90, 0x90, 0x90, 0xE0,
   0xF0, 0x80, 0xF0, 0x80, 0xF0,
   0xF0, 0x80, 0xF0, 0x80, 0x80,
   0x60, 0x80, 0xF0, 0x10, 0x60]

/-- `init_chip8`: a fresh machine with the fontset at 0x50 and, when given,
the ROM loaded at 0x200. -/
def init_chip8 (rom : Option (List Nat)) : Chip8 :=
  let vm := Chip8.new.load_bytes_at fontset 0x50
  match rom with
  | some x => vm.load_rom x
  | none => vm

/-- The `CounterMessage` enum of `counter.rs`. -/
inductive CounterMessage where
  | GetCount : CounterMessage
  | SetCount : Nat → CounterMessage

/-- `Counter::handle_message`: `GetCount` replies with the current value on
its oneshot channel, `SetCount` overwrites the value.  The returned pair is
(new value, reply sent, if any). -/
def Counter.handle_message (value : Nat) (msg : CounterMessage) : Nat × Option Nat :=
  match msg with
  | .GetCount => (value, some value)
  | .SetCount v => (v, none)

/-- One iteration of the `run_counter` loop body: after the 60Hz tick, the
`tokio::select!` waits for (exactly) one message on `counter.recv`, handles
it, and then decrements the value when it is positive.  Because the select
has no other branch, an iteration only happens when a message arrives: ticks
without a pending message do not decrement the value. -/
def run_counter_iter (value : Nat) (msg : CounterMessage) : Nat × Option Nat :=
  let r := Counter.handle_message value msg
  (if r.1 > 0 then r.1 - 1 else r.1, r.2)

/-- The `run_counter` loop over a sequence of received messages, collecting
the replies to the `GetCount` messages. -/
def run_counter (value : Nat) : List CounterMessage → Nat × List Nat
  | [] => (value, [])
  | m :: ms =>
    let r := run_counter_iter value m
    let rest := run_counter r.1 ms
    (rest.1, r.2.toList ++ rest.2)

/-- The `FuseMessage` enum of `fuse.rs`. -/
inductive FuseMessage where
  | Alive : FuseMessage
  | Blow : FuseMessage

/-- State of the fuse system of `fuse.rs`: the `tokio::sync::broadcast`
channel of capacity 1 together with the `run_fuse` task.  `lastMsg` is the
single value currently retained in the one-slot ring (a later send
overwrites — evicts — an unread value), `unread` is how many sends the
`run_fuse` receiver is behind (when it is behind by two or more, only the
newest value is still retained and the next `recv()` yields
`Err(Lagged)`), and `receiverAlive` is whether the `run_fuse` loop is
still running and therefore still holds the channel's only receiver
(nothing in the program ever calls `subscribe` to make another one). -/
structure FuseState where
  lastMsg : Option FuseMessage
  unread : Nat
  receiverAlive : Bool

/-- The freshly created fuse: empty channel, receiver subscribed and
caught up, `run_fuse` task looping. -/
def FuseState.init : FuseState where
  lastMsg := none
  unread := 0
  receiverAlive := true

/-- A send on the capacity-1 broadcast channel (`self.send.send(msg)`): if
the receiver is gone the send fails (`is_ok()` is false) and the value is
dropped; otherwise the value overwrites the single ring slot — evicting an
unread earlier value, which the receiver will only ever see as a `Lagged`
error — and the receiver falls one further behind. -/
def fuseSend (s : FuseState) (m : FuseMessage) : FuseState :=
  if s.receiverAlive then { s with lastMsg := some m, unread := s.unread + 1 }
  else s

/-- One `recv()` of the `run_fuse` loop.  Behind by two or more sends: the
receiver gets `Err(Lagged)` and jumps forward to the single retained
value; the source's `_ => continue` discards the error, so any evicted
`Blow` is lost for good.  Behind by exactly one: the retained value is
delivered; `Ok(Blow)` breaks the loop and drops the receiver, anything
else just continues.  Caught up: `recv()` blocks, nothing happens. -/
def fuseRecvStep (s : FuseState) : FuseState :=
  if !s.receiverAlive then s
  else if s.unread ≥ 2 then { s with unread := 1 }
  else if s.unread = 1 then
    match s.lastMsg with
    | some FuseMessage.Blow => { s with unread := 0, receiverAlive := false }
    | _ => { s with unread := 0 }
  else s

/-- The atomic events of the fuse system: `FuseHandle::blow()` sends
`Blow`; `FuseHandle::alive()` sends `Alive` into the same channel (and
returns `is_ok()`); the scheduler lets the `run_fuse` task perform one
`recv()`. -/
inductive FuseEvent where
  | blow : FuseEvent
  | aliveProbe : FuseEvent
  | recvStep : FuseEvent

/-- One step of the fuse system. -/
def fuseStep (s : FuseState) (e : FuseEvent) : FuseState :=
  match e with
  | .blow => fuseSend s FuseMessage.Blow
  | .aliveProbe => fuseSend s FuseMessage.Alive
  | .recvStep => fuseRecvStep s

/-- The fuse system run over a schedule of events. -/
def fuseRun (s : FuseState) (es : List FuseEvent) : FuseState :=
  es.foldl fuseStep s

/-- The value `FuseHandle::alive()` returns in state `s`:
`self.send.send(FuseMessage::Alive).is_ok()`, which is true exactly when
the `run_fuse` receiver still exists.  (The send that the call performs is
the `aliveProbe` event.) -/
def FuseHandle.alive (s : FuseState) : Bool := s.receiverAlive

/-- Helper for `util.rs`: ASCII digit test (the regex class `\d`). -/
def isAsciiDigit (ch : Char) : Bool :=
  decide ('0' ≤ ch) && decide (ch ≤ '9')

/-- Greedy match of the regex `\d+(\.\d+)?` at the head of `cs` (the head is
known to be a digit): integer digits, optional fractional digits, and the
rest of the input after the match. -/
def matchNumber (cs : List Char) : List Char × List Char × List Char :=
  let int := cs.takeWhile isAsciiDigit
  let r1 := cs.dropWhile isAsciiDigit
  match r1 with
  | c :: r2 =>
    if c = '.' ∧ r2.takeWhile isAsciiDigit ≠ [] then
      (int, r2.takeWhile isAsciiDigit, r2.dropWhile isAsciiDigit)
    else (int, [], r1)
  | [] => (int, [], [])

/-- Leftmost match of the regex `\d+(\.\d+)?` (`re_num.find(input)`):
`none` when the input has no digit at all. -/
def findNumber : List Char → Option (List Char × List Char × List Char)
  | [] => none
  | ch :: rest =>
    if isAsciiDigit ch then some (matchNumber (ch :: rest))
    else findNumber rest

/-- Decimal digits to a natural number. -/
def digitsToNat (ds : List Char) : Nat :=
  ds.foldl (fun a ch => a * 10 + (ch.toNat - 48)) 0

/-- Value of the matched number `<int>.<frac>` as an exact rational (the
Rust parses it as an `f64`; `f64` rounding is modelled away by exact
arithmetic). -/
def numberVal (int frac : List Char) : ℚ :=
  (digitsToNat int : ℚ) + (digitsToNat frac : ℚ) / (10 : ℚ) ^ frac.length

/-- ASCII lowercasing of one character (`str::to_lowercase` on the ASCII
unit suffixes used here). -/
def asciiLowerChar (ch : Char) : Char :=
  if 'A' ≤ ch ∧ ch ≤ 'Z' then Char.ofNat (ch.toNat + 32) else ch

/-- ASCII lowercasing of a character list. -/
def asciiLower (cs : List Char) : List Char := cs.map asciiLowerChar

/-- `util.rs` `input_to_hertz`: find the number, lowercase the rest of the
input as the unit, map the unit to a multiplier (note the source multiplies
by 1000 for `mhz` and 1000*1000 for `ghz`), multiply and floor to an
integer frequency.  A missing number or an unknown unit panics (a fatal
startup error), modelled as `Except.error`. -/
def input_to_hertz (input : String) : Except String Nat := do
  match findNumber input.data with
  | none => .error (r"called Option.unwrap on a None value")
  | some (int, frac, rest) =>
    let number : ℚ := numberVal int frac
    let freq := asciiLower rest
    let multiplier : Nat ←
      if freq = (r"ghz").data then .ok (1000 * 1000)
      else if freq = (r"mhz").data then .ok 1000
      else if freq = (r"hz").data then .ok 1
      else .error (r"Chip8 Frequency must end with GHz, MHz, or Hz")
    let frequency_in_hertz : ℚ := number * (multiplier : ℚ)
    .ok (Int.toNat ⌊frequency_in_hertz⌋)

/-- `util.rs` `hertz_to_seconds`: `1/frequency` seconds. -/
def hertz_to_seconds (hertz : Nat) : ℚ := 1 / (hertz : ℚ)

/-- `util.rs` `hz_to_secs`. -/
def hz_to_secs (input : String) : Except String ℚ :=
  (input_to_hertz input).map hertz_to_seconds


/-! Helper lemmas for the proofs below. -/

lemma ok_bind {α β : Type} (a : α) (f : α → Except String β) :
    (Except.ok a : Except String α) >>= f = f a := rfl

lemma error_bind {α β : Type} (e : String) (f : α → Except String β) :
    (Except.error e : Except String α) >>= f = Except.error e := rfl

lemma masks_getD_eq {col : Nat} (h : col < 8) : masks.getD col 0 = 2 ^ (7 - col) := by
  interval_cases col <;> rfl

lemma and_pos_iff_testBit (b i : Nat) : (2 ^ i &&& b > 0) ↔ b.testBit i = true := by
  rw [Nat.two_pow_and]
  rcases h : b.testBit i <;> simp [h]

lemma drawColsAux_succ (sx tx y b fuel col : Nat) (pix : Nat → Nat → Bool) (coll : Bool) :
    drawColsAux sx tx y b (fuel + 1) col pix coll =
      (let x := (tx + col) % sx
       let bmask := (masks.getD col 0) &&& b
       let cur := pix x y
       let pix1 := if bmask > 0 then setPix pix x y (!cur) else pix
       let coll1 := if bmask > 0 && cur then true else coll
       if x + 1 = sx then (pix1, coll1)
       else drawColsAux sx tx y b fuel (col + 1) pix1 coll1) := rfl

lemma drawColsAux_spec (sx tx y b : Nat) :
    ∀ fuel col pix coll, tx + col < sx → col + fuel ≤ 8 →
      ((drawColsAux sx tx y b fuel col pix coll).1 = fun px py =>
         if py = y ∧ tx + col ≤ px ∧ px < tx + col + fuel ∧ px < sx ∧
            Nat.testBit b (7 - (px - tx)) = true
         then !(pix px py) else pix px py) ∧
      ((drawColsAux sx tx y b fuel col pix coll).2 = true ↔ (coll = true ∨
         ∃ cc, col ≤ cc ∧ cc < col + fuel ∧ tx + cc < sx ∧
           Nat.testBit b (7 - cc) = true ∧ pix (tx + cc) y = true)) := by
  intro fuel
  induction fuel with
  | zero =>
    intro col pix coll hcol _
    constructor
    · funext px py
      rw [if_neg]
      · rfl
      · rintro ⟨-, h1, h2, -⟩
        omega
    · simp only [drawColsAux]
      constructor
      · intro h; exact Or.inl h
      · rintro (h | ⟨cc, h1, h2, -, -⟩)
        · exact h
        · omega
  | succ fuel ih =>
    intro col pix coll hcol hle
    have hcol8 : col < 8 := by omega
    have hx : (tx + col) % sx = tx + col := Nat.mod_eq_of_lt hcol
    rw [drawColsAux_succ]
    simp only [hx, masks_getD_eq hcol8]
    by_cases hbit : Nat.testBit b (7 - col) = true
    · have hpos : (2 ^ (7 - col) &&& b > 0) := (and_pos_iff_testBit b (7 - col)).mpr hbit
      have hdec : decide (2 ^ (7 - col) &&& b > 0) = true := decide_eq_true hpos
      rw [if_pos hpos]
      simp only [hdec, Bool.true_and]
      by_cases hbrk : tx + col + 1 = sx
      · rw [if_pos hbrk]
        constructor
        · funext px py
          dsimp only
          by_cases hpt : px = tx + col ∧ py = y
          · rw [setPix, if_pos ⟨hpt.1, hpt.2⟩, if_pos]
            · rw [hpt.1, hpt.2]
            · refine ⟨hpt.2, by omega, by omega, by omega, ?_⟩
              have hc : px - tx = col := by omega
              rw [hc]; exact hbit
          · rw [setPix, if_neg hpt, if_neg]
            rintro ⟨hy, h1, h2, h3, hb⟩
            exact hpt ⟨by omega, hy⟩
        · dsimp only
          by_cases hcur : pix (tx + col) y = true
          · simp only [hcur, if_pos]
            constructor
            · intro _; exact Or.inr ⟨col, le_refl col, by omega, by omega, hbit, hcur⟩
            · intro _; trivial
          · have hcur' : pix (tx + col) y = false := by
              rcases h : pix (tx + col) y
              · rfl
              · exact absurd h hcur
            simp only [hcur', if_neg, Bool.false_eq_true, if_false]
            constructor
            · intro h; exact Or.inl h
            · rintro (h | ⟨cc, h1, h2, h3, hb, hp⟩)
              · exact h
              · have hcc : cc = col := by omega
                rw [hcc, hcur'] at hp
                exact absurd hp (by simp)
      · rw [if_neg hbrk]
        have hcol' : tx + (col + 1) < sx := by omega
        have hle' : (col + 1) + fuel ≤ 8 := by omega
        obtain ⟨ihp, ihc⟩ := ih (col + 1)
          (setPix pix (tx + col) y (!pix (tx + col) y))
          (if pix (tx + col) y then true else coll) hcol' hle'
        constructor
        · rw [ihp]
          funext px py
          dsimp only
          by_cases hpt : px = tx + col ∧ py = y
          · rw [if_neg, setPix, if_pos ⟨hpt.1, hpt.2⟩, if_pos]
            · rw [hpt.1, hpt.2]
            · refine ⟨hpt.2, by omega, by omega, by omega, ?_⟩
              have hc : px - tx = col := by omega
              rw [hc]; exact hbit
            · rintro ⟨hy, h1, -, -, -⟩
              exact absurd hpt.1 (by omega)
          · by_cases hcond : py = y ∧ tx + (col + 1) ≤ px ∧ px < tx + (col + 1) + fuel ∧ px < sx ∧ Nat.testBit b (7 - (px - tx)) = true
            · rw [if_pos hcond, setPix, if_neg hpt, if_pos]
              refine ⟨hcond.1, by omega, by omega, hcond.2.2.2.1, hcond.2.2.2.2⟩
            · rw [if_neg hcond, setPix, if_neg hpt, if_neg]
              rintro ⟨hy, h1, h2, h3, hb⟩
              apply hcond
              have hne : px ≠ tx + col := fun h => hpt ⟨h, hy⟩
              exact ⟨hy, by omega, by omega, h3, hb⟩
        · rw [ihc]
          constructor
          · rintro (h | ⟨cc, h1, h2, h3, hb, hp⟩)
            · by_cases hcur : pix (tx + col) y = true
              · exact Or.inr ⟨col, le_refl col, by omega, by omega, hbit, hcur⟩
              · rw [if_neg (by simpa using hcur)] at h
                exact Or.inl h
            · rw [setPix, if_neg (by rintro ⟨h', -⟩; omega)] at hp
              exact Or.inr ⟨cc, by omega, by omega, h3, hb, hp⟩
          · rintro (h | ⟨cc, h1, h2, h3, hb, hp⟩)
            · left
              by_cases hcur : pix (tx + col) y = true
              · rw [if_pos hcur]
              · rwa [if_neg (by simpa using hcur)]
            · by_cases hcc : cc = col
              · rw [hcc] at hp
                left
                rw [if_pos hp]
              · right
                refine ⟨cc, by omega, by omega, h3, hb, ?_⟩
                rw [setPix, if_neg (by rintro ⟨h', -⟩; omega)]
                exact hp
    · have hneg : ¬ (2 ^ (7 - col) &&& b > 0) := fun h => hbit ((and_pos_iff_testBit b (7 - col)).mp h)
      have hdec : decide (2 ^ (7 - col) &&& b > 0) = false := decide_eq_false hneg
      rw [if_neg hneg]
      simp only [hdec, Bool.false_and, Bool.false_eq_true, if_false]
      by_cases hbrk : tx + col + 1 = sx
      · rw [if_pos hbrk]
        constructor
        · funext px py
          dsimp only
          rw [if_neg]
          rintro ⟨hy, h1, h2, h3, hb⟩
          have hc : px - tx = col := by omega
          rw [hc] at hb
          exact hbit hb
        · dsimp only
          constructor
          · intro h; exact Or.inl h
          · rintro (h | ⟨cc, h1, h2, h3, hb, hp⟩)
            · exact h
            · have hcc : cc = col := by omega
              rw [hcc] at hb
              exact absurd hb hbit
      · rw [if_neg hbrk]
        have hcol' : tx + (col + 1) < sx := by omega
        have hle' : (col + 1) + fuel ≤ 8 := by omega
        obtain ⟨ihp, ihc⟩ := ih (col + 1) pix coll hcol' hle'
        constructor
        · rw [ihp]
          funext px py
          by_cases hcond : py = y ∧ tx + (col + 1) ≤ px ∧ px < tx + (col + 1) + fuel ∧ px < sx ∧ Nat.testBit b (7 - (px - tx)) = true
          · rw [if_pos hcond, if_pos]
            exact ⟨hcond.1, by omega, by omega, hcond.2.2.2.1, hcond.2.2.2.2⟩
          · rw [if_neg hcond, if_neg]
            rintro ⟨hy, h1, h2, h3, hb⟩
            apply hcond
            have hne : px ≠ tx + col := by
              intro h
              rw [h] at hb
              have hc : tx + col - tx = col := by omega
              rw [hc] at hb
              exact hbit hb
            exact ⟨hy, by omega, by omega, h3, hb⟩
        · rw [ihc]
          constructor
          · rintro (h | ⟨cc, h1, h2, h3, hb, hp⟩)
            · exact Or.inl h
            · exact Or.inr ⟨cc, by omega, by omega, h3, hb, hp⟩
          · rintro (h | ⟨cc, h1, h2, h3, hb, hp⟩)
            · exact Or.inl h
            · refine Or.inr ⟨cc, ?_, by omega, h3, hb, hp⟩
              by_cases hcc : cc = col
              · rw [hcc] at hb; exact absurd hb hbit
              · omega


lemma drawRowsAux_succ (sx sy tx ty : Nat) (b : Nat) (rest : List Nat) (row : Nat)
    (pix : Nat → Nat → Bool) (coll : Bool) :
    drawRowsAux sx sy tx ty (b :: rest) row pix coll =
      (let y := (row + ty) % sy
       if y < sy then
         let r := drawColsAux sx tx y b 8 0 pix coll
         if y + 1 = sy then r
         else drawRowsAux sx sy tx ty rest (row + 1) r.1 r.2
       else drawRowsAux sx sy tx ty rest (row + 1) pix coll) := rfl

lemma drawRowsAux_spec (sx sy tx ty : Nat) (hx : tx < sx) :
    ∀ bytes row pix coll, ty + row < sy →
      ((drawRowsAux sx sy tx ty bytes row pix coll).1 = fun px py =>
         if ty + row ≤ py ∧ py < ty + row + bytes.length ∧ py < sy ∧
            tx ≤ px ∧ px < tx + 8 ∧ px < sx ∧
            Nat.testBit (bytes.getD (py - ty - row) 0) (7 - (px - tx)) = true
         then !(pix px py) else pix px py) ∧
      ((drawRowsAux sx sy tx ty bytes row pix coll).2 = true ↔ (coll = true ∨
         ∃ rr cc, row ≤ rr ∧ rr < row + bytes.length ∧ ty + rr < sy ∧
           cc < 8 ∧ tx + cc < sx ∧
           Nat.testBit (bytes.getD (rr - row) 0) (7 - cc) = true ∧
           pix (tx + cc) (ty + rr) = true)) := by
  intro bytes
  induction bytes with
  | nil =>
    intro row pix coll hrow
    constructor
    · funext px py
      rw [if_neg]
      · rfl
      · rintro ⟨h1, h2, -, -, -, -, -⟩
        simp only [List.length_nil] at h2
        omega
    · simp only [drawRowsAux]
      constructor
      · intro h; exact Or.inl h
      · rintro (h | ⟨rr, cc, h1, h2, -, -, -, -, -⟩)
        · exact h
        · simp only [List.length_nil] at h2
          omega
  | cons b rest ihr =>
    intro row pix coll hrow
    have hy : (row + ty) % sy = row + ty := Nat.mod_eq_of_lt (by omega)
    rw [drawRowsAux_succ]
    simp only [hy]
    rw [if_pos (by omega : row + ty < sy)]
    obtain ⟨cp, ccoll⟩ := drawColsAux_spec sx tx (row + ty) b 8 0 pix coll (by omega) (by omega)
    by_cases hbrk : row + ty + 1 = sy
    · rw [if_pos hbrk]
      constructor
      · rw [cp]
        funext px py
        by_cases hcnd : py = row + ty ∧ tx + 0 ≤ px ∧ px < tx + 0 + 8 ∧ px < sx ∧
            Nat.testBit b (7 - (px - tx)) = true
        · obtain ⟨hc1, hc2, hc3, hc4, hc5⟩ := hcnd
          rw [if_pos ⟨hc1, hc2, hc3, hc4, hc5⟩, if_pos]
          have hidx : py - ty - row = 0 := by omega
          rw [hidx]
          simp only [List.length_cons, List.getD_cons_zero]
          exact ⟨by omega, by omega, by omega, by omega, by omega, hc4, hc5⟩
        · rw [if_neg hcnd, if_neg]
          rintro ⟨h1, h2, h3, h4, h5, h6, hb⟩
          apply hcnd
          have hpy : py = row + ty := by omega
          have hidx : py - ty - row = 0 := by omega
          rw [hidx] at hb
          simp only [List.getD_cons_zero] at hb
          exact ⟨hpy, by omega, by omega, h6, hb⟩
      · rw [ccoll]
        constructor
        · rintro (h | ⟨cc, h1, h2, h3, hb, hp⟩)
          · exact Or.inl h
          · refine Or.inr ⟨row, cc, le_refl row, by simp only [List.length_cons]; omega,
              by omega, by omega, h3, ?_, ?_⟩
            · have h0 : row - row = 0 := by omega
              rw [h0]
              simpa using hb
            · have hco : ty + row = row + ty := by omega
              rw [hco]
              exact hp
        · rintro (h | ⟨rr, cc, h1, h2, h3, h4, h5, hb, hp⟩)
          · exact Or.inl h
          · have hrr : rr = row := by omega
            rw [hrr] at hb hp
            have h0 : row - row = 0 := by omega
            rw [h0] at hb
            simp only [List.getD_cons_zero] at hb
            refine Or.inr ⟨cc, by omega, by omega, h5, hb, ?_⟩
            have hco : row + ty = ty + row := by omega
            rw [hco]
            exact hp
    · rw [if_neg hbrk]
      have hrow' : ty + (row + 1) < sy := by omega
      obtain ⟨ihp, ihc⟩ := ihr (row + 1)
        (drawColsAux sx tx (row + ty) b 8 0 pix coll).1
        (drawColsAux sx tx (row + ty) b 8 0 pix coll).2 hrow'
      constructor
      · rw [ihp, cp]
        funext px py
        dsimp only
        by_cases hpt : py = row + ty
        · rw [if_neg (by rintro ⟨h1, -⟩; omega)]
          by_cases hcnd : py = row + ty ∧ tx + 0 ≤ px ∧ px < tx + 0 + 8 ∧ px < sx ∧
              Nat.testBit b (7 - (px - tx)) = true
          · obtain ⟨hc1, hc2, hc3, hc4, hc5⟩ := hcnd
            rw [if_pos ⟨hc1, hc2, hc3, hc4, hc5⟩, if_pos]
            have hidx : py - ty - row = 0 := by omega
            rw [hidx]
            simp only [List.length_cons, List.getD_cons_zero]
            exact ⟨by omega, by omega, by omega, by omega, by omega, hc4, hc5⟩
          · rw [if_neg hcnd, if_neg]
            rintro ⟨h1, h2, h3, h4, h5, h6, hb⟩
            apply hcnd
            have hidx : py - ty - row = 0 := by omega
            rw [hidx] at hb
            simp only [List.getD_cons_zero] at hb
            exact ⟨hpt, by omega, by omega, h6, hb⟩
        · by_cases hcnd : ty + (row + 1) ≤ py ∧ py < ty + (row + 1) + rest.length ∧ py < sy ∧
              tx ≤ px ∧ px < tx + 8 ∧ px < sx ∧
              Nat.testBit (rest.getD (py - ty - (row + 1)) 0) (7 - (px - tx)) = true
          · obtain ⟨hc1, hc2, hc3, hc4, hc5, hc6, hc7⟩ := hcnd
            rw [if_pos ⟨hc1, hc2, hc3, hc4, hc5, hc6, hc7⟩]
            rw [if_neg (by rintro ⟨hpy, -⟩; exact hpt (by omega)), if_pos]
            have hidx : py - ty - row = (py - ty - (row + 1)) + 1 := by omega
            rw [hidx]
            simp only [List.length_cons, List.getD_cons_succ]
            exact ⟨by omega, by omega, hc3, hc4, hc5, hc6, hc7⟩
          · rw [if_neg hcnd]
            rw [if_neg (by rintro ⟨hpy, -⟩; exact hpt (by omega)), if_neg]
            rintro ⟨h1, h2, h3, h4, h5, h6, hb⟩
            apply hcnd
            simp only [List.length_cons] at h2
            have hidx : py - ty - row = (py - ty - (row + 1)) + 1 := by omega
            rw [hidx] at hb
            simp only [List.getD_cons_succ] at hb
            exact ⟨by omega, by omega, h3, h4, h5, h6, hb⟩
      · rw [ihc, ccoll]
        have hpixrw : ∀ cc rr, row + 1 ≤ rr →
            (drawColsAux sx tx (row + ty) b 8 0 pix coll).1 (tx + cc) (ty + rr) =
              pix (tx + cc) (ty + rr) := by
          intro cc rr hrr
          rw [cp]
          dsimp only
          rw [if_neg]
          rintro ⟨h1, -⟩
          omega
        constructor
        · rintro ((h | ⟨cc, h1, h2, h3, hb, hp⟩) | ⟨rr, cc, h1, h2, h3, h4, h5, hb, hp⟩)
          · exact Or.inl h
          · refine Or.inr ⟨row, cc, le_refl row, by simp only [List.length_cons]; omega,
              by omega, by omega, h3, ?_, ?_⟩
            · have h0 : row - row = 0 := by omega
              rw [h0]
              simpa using hb
            · have hco : ty + row = row + ty := by omega
              rw [hco]
              exact hp
          · rw [hpixrw cc rr h1] at hp
            refine Or.inr ⟨rr, cc, by omega, by simp only [List.length_cons]; omega,
              h3, h4, h5, ?_, hp⟩
            have hidx : rr - row = (rr - (row + 1)) + 1 := by omega
            rw [hidx]
            simpa using hb
        · rintro (h | ⟨rr, cc, h1, h2, h3, h4, h5, hb, hp⟩)
          · exact Or.inl (Or.inl h)
          · simp only [List.length_cons] at h2
            by_cases hrr : rr = row
            · refine Or.inl (Or.inr ⟨cc, by omega, by omega, h5, ?_, ?_⟩)
              · rw [hrr] at hb
                have h0 : row - row = 0 := by omega
                rw [h0] at hb
                simpa using hb
              · rw [hrr] at hp
                have hco : row + ty = ty + row := by omega
                rw [hco]
                exact hp
            · refine Or.inr ⟨rr, cc, by omega, by omega, h3, h4, h5, ?_, ?_⟩
              · have hidx : rr - row = (rr - (row + 1)) + 1 := by omega
                rw [hidx] at hb
                simpa using hb
              · rw [hpixrw cc rr (by omega)]
                exact hp


lemma setReg_at (r : Nat → Nat) (idx v : Nat) : setReg r idx v idx = v := by
  simp [setReg]

lemma setReg_ne (r : Nat → Nat) (idx v j : Nat) (h : j ≠ idx) : setReg r idx v j = r j := by
  simp [setReg, h]

lemma screen_size_pos (s : ScreenSize) :
    0 < s.get_screen_size.1 ∧ 0 < s.get_screen_size.2 := by
  cases s <;> simp [ScreenSize.get_screen_size]

/-- Characterization of `Chip8::draw` while running: start coordinates wrap
modulo the screen size; each drawn pixel is the old pixel XOR the sprite
bit; drawing clips at the right and bottom screen edges; `VF` ends up 1
exactly when some drawn sprite bit hit a lit pixel; nothing else changes. -/
theorem draw_spec (c : Chip8) (vx vy : Nat) (bytes : List Nat) (sx sy : Nat)
    (hrun : c.running = true) (hs : c.screen.get_screen_size = (sx, sy)) :
    ((c.draw vx vy bytes).video = fun px py =>
       if vy % sy ≤ py ∧ py < vy % sy + bytes.length ∧ py < sy ∧
          vx % sx ≤ px ∧ px < vx % sx + 8 ∧ px < sx ∧
          Nat.testBit (bytes.getD (py - vy % sy) 0) (7 - (px - vx % sx)) = true
       then !(c.video px py) else c.video px py) ∧
    ((c.draw vx vy bytes).vS 15 = 1 ↔
       (∃ rr cc, rr < bytes.length ∧ vy % sy + rr < sy ∧ cc < 8 ∧ vx % sx + cc < sx ∧
          Nat.testBit (bytes.getD rr 0) (7 - cc) = true ∧
          c.video (vx % sx + cc) (vy % sy + rr) = true)) ∧
    ((c.draw vx vy bytes).vS 15 = 0 ↔
       ¬ (∃ rr cc, rr < bytes.length ∧ vy % sy + rr < sy ∧ cc < 8 ∧ vx % sx + cc < sx ∧
          Nat.testBit (bytes.getD rr 0) (7 - cc) = true ∧
          c.video (vx % sx + cc) (vy % sy + rr) = true)) ∧
    (∀ rg, rg ≠ 15 → (c.draw vx vy bytes).vS rg = c.vS rg) ∧
    (c.draw vx vy bytes).memory = c.memory ∧
    (c.draw vx vy bytes).pc = c.pc ∧
    (c.draw vx vy bytes).sp = c.sp ∧
    (c.draw vx vy bytes).i = c.i ∧
    (c.draw vx vy bytes).running = c.running ∧
    (c.draw vx vy bytes).screen = c.screen := by
  obtain ⟨hsx, hsy⟩ := screen_size_pos c.screen
  rw [hs] at hsx hsy
  have hdr : c.draw vx vy bytes =
      { c with
        video := (drawRowsAux sx sy (vx % sx) (vy % sy) bytes 0 c.video false).1,
        vS := setReg c.vS 15
          (if (drawRowsAux sx sy (vx % sx) (vy % sy) bytes 0 c.video false).2 then 1 else 0) } := by
    rw [Chip8.draw, hrun]
    simp only [Bool.not_true, Bool.false_eq_true, if_false, hs]
  have htx : vx % sx < sx := Nat.mod_lt vx hsx
  have hty : vy % sy < sy := Nat.mod_lt vy hsy
  obtain ⟨hp, hc⟩ := drawRowsAux_spec sx sy (vx % sx) (vy % sy) htx bytes 0 c.video false
    (by omega)
  have hcnd : ∀ px py,
      (vy % sy + 0 ≤ py ∧ py < vy % sy + 0 + bytes.length ∧ py < sy ∧
        vx % sx ≤ px ∧ px < vx % sx + 8 ∧ px < sx ∧
        Nat.testBit (bytes.getD (py - vy % sy - 0) 0) (7 - (px - vx % sx)) = true) ↔
      (vy % sy ≤ py ∧ py < vy % sy + bytes.length ∧ py < sy ∧
        vx % sx ≤ px ∧ px < vx % sx + 8 ∧ px < sx ∧
        Nat.testBit (bytes.getD (py - vy % sy) 0) (7 - (px - vx % sx)) = true) := by
    intro px py
    constructor
    · rintro ⟨h1, h2, h3, h4, h5, h6, h7⟩
      rw [Nat.sub_zero] at h7
      exact ⟨by omega, by omega, h3, h4, h5, h6, h7⟩
    · rintro ⟨h1, h2, h3, h4, h5, h6, h7⟩
      rw [Nat.sub_zero]
      exact ⟨by omega, by omega, h3, h4, h5, h6, h7⟩
  have hex :
      ((false = true) ∨ ∃ rr cc, 0 ≤ rr ∧ rr < 0 + bytes.length ∧ vy % sy + rr < sy ∧
        cc < 8 ∧ vx % sx + cc < sx ∧
        Nat.testBit (bytes.getD (rr - 0) 0) (7 - cc) = true ∧
        c.video (vx % sx + cc) (vy % sy + rr) = true) ↔
      (∃ rr cc, rr < bytes.length ∧ vy % sy + rr < sy ∧ cc < 8 ∧ vx % sx + cc < sx ∧
        Nat.testBit (bytes.getD rr 0) (7 - cc) = true ∧
        c.video (vx % sx + cc) (vy % sy + rr) = true) := by
    constructor
    · rintro (h | ⟨rr, cc, h1, h2, h3, h4, h5, h6, h7⟩)
      · exact absurd h (by simp)
      · rw [Nat.sub_zero] at h6
        exact ⟨rr, cc, by omega, h3, h4, h5, h6, h7⟩
    · rintro ⟨rr, cc, h1, h2, h3, h4, h5, h6⟩
      refine Or.inr ⟨rr, cc, by omega, by omega, h2, h3, h4, ?_, h6⟩
      rw [Nat.sub_zero]
      exact h5
  refine ⟨?_, ?_, ?_, ?_, ?_, ?_, ?_, ?_, ?_, ?_⟩
  · rw [hdr]
    dsimp only
    rw [hp]
    funext px py
    by_cases hq : vy % sy ≤ py ∧ py < vy % sy + bytes.length ∧ py < sy ∧
        vx % sx ≤ px ∧ px < vx % sx + 8 ∧ px < sx ∧
        Nat.testBit (bytes.getD (py - vy % sy) 0) (7 - (px - vx % sx)) = true
    · rw [if_pos ((hcnd px py).mpr hq), if_pos hq]
    · rw [if_neg (fun h => hq ((hcnd px py).mp h)), if_neg hq]
  · rw [hdr]
    dsimp only
    rw [setReg_at]
    by_cases hb : (drawRowsAux sx sy (vx % sx) (vy % sy) bytes 0 c.video false).2 = true
    · rw [if_pos hb]
      constructor
      · intro _; exact hex.mp (hc.mp hb)
      · intro _; rfl
    · rw [if_neg hb]
      constructor
      · intro h; exact absurd h (by omega)
      · intro h; exact absurd (hc.mpr (hex.mpr h)) hb
  · rw [hdr]
    dsimp only
    rw [setReg_at]
    by_cases hb : (drawRowsAux sx sy (vx % sx) (vy % sy) bytes 0 c.video false).2 = true
    · rw [if_pos hb]
      constructor
      · intro h; exact absurd h (by omega)
      · intro hnp; exact absurd (hex.mp (hc.mp hb)) hnp
    · rw [if_neg hb]
      constructor
      · intro _ h; exact hb (hc.mpr (hex.mpr h))
      · intro _; rfl
  · intro rg hrg
    rw [hdr]
    dsimp only
    rw [setReg_ne _ _ _ _ hrg]
  · rw [hdr]
  · rw [hdr]
  · rw [hdr]
  · rw [hdr]
  · rw [hdr]
  · rw [hdr]


lemma testBit_of_mul_add (hb lb i : Nat) (h : lb < 256) (hi : 8 ≤ i) :
    (hb * 256 + lb).testBit i = hb.testBit (i - 8) := by
  have h3 : (hb * 256 + lb) >>> 8 = hb := by
    rw [Nat.shiftRight_eq_div_pow]
    norm_num
    omega
  have h4 : (hb * 256 + lb).testBit i = ((hb * 256 + lb) >>> 8).testBit (i - 8) := by
    rw [Nat.testBit_shiftRight]
    congr 1
    omega
  rw [h4, h3]

lemma testBit_of_mul_add_lo (hb lb i : Nat) (h : lb < 256) (hi : i < 8) :
    (hb * 256 + lb).testBit i = lb.testBit i := by
  have h2 : (hb * 256 + lb) % 256 = lb := by omega
  have h3 : (hb * 256 + lb).testBit i = ((hb * 256 + lb) % 2 ^ 8).testBit i := by
    rw [Nat.testBit_mod_two_pow, decide_eq_true hi, Bool.true_and]
  rw [h3]
  norm_num
  rw [h2]

lemma lor256 (hb lb : Nat) (h : lb < 256) : (hb <<< 8) ||| lb = hb * 256 + lb := by
  apply Nat.eq_of_testBit_eq
  intro i
  rw [Nat.testBit_lor, Nat.testBit_shiftLeft]
  rcases Nat.lt_or_ge i 8 with hi | hi
  · have h1 : decide (i ≥ 8) = false := by simp only [ge_iff_le, decide_eq_false_iff_not]; omega
    rw [h1, Bool.false_and, Bool.false_or, testBit_of_mul_add_lo hb lb i h hi]
  · have h1 : decide (i ≥ 8) = true := by simp only [ge_iff_le, decide_eq_true_eq]; omega
    have h2 : lb.testBit i = false := by
      apply Nat.testBit_eq_false_of_lt
      calc lb < 256 := h
        _ = 2 ^ 8 := by norm_num
        _ ≤ 2 ^ i := Nat.pow_le_pow_right (by omega) hi
    rw [h1, Bool.true_and, h2, Bool.or_false, testBit_of_mul_add hb lb i h hi]

lemma and_mask_255 (x : Nat) : x &&& 255 = x % 256 := by
  have h := Nat.and_pow_two_sub_one_eq_mod x 8
  norm_num at h
  exact h

lemma and_mask_255' (x : Nat) : 255 &&& x = x % 256 := by
  rw [Nat.and_comm]
  exact and_mask_255 x

lemma and_mask_4095 (x : Nat) : x &&& 4095 = x % 4096 := by
  have h := Nat.and_pow_two_sub_one_eq_mod x 12
  norm_num at h
  exact h

lemma and_mask_4095' (x : Nat) : 4095 &&& x = x % 4096 := by
  rw [Nat.and_comm]
  exact and_mask_4095 x

lemma and_mask_15 (x : Nat) : x &&& 15 = x % 16 := by
  have h := Nat.and_pow_two_sub_one_eq_mod x 4
  norm_num at h
  exact h

lemma and_mask_15' (x : Nat) : 15 &&& x = x % 16 := by
  rw [Nat.and_comm]
  exact and_mask_15 x

lemma shiftMask (m k x : Nat) : ((m <<< k) &&& x) >>> k = m &&& (x >>> k) := by
  apply Nat.eq_of_testBit_eq
  intro i
  rw [Nat.testBit_shiftRight, Nat.testBit_land, Nat.testBit_shiftLeft, Nat.testBit_land,
      Nat.testBit_shiftRight]
  have h1 : decide (k + i ≥ k) = true := by simp
  rw [h1, Bool.true_and]
  congr 2
  omega

lemma maskFF00_shift (x : Nat) : (0xFF00 &&& x) >>> 8 = (x >>> 8) % 256 := by
  have h : (0xFF00 : Nat) = 255 <<< 8 := rfl
  rw [h, shiftMask, and_mask_255']

lemma maskF00_shift (x : Nat) : (0x0F00 &&& x) >>> 8 = (x >>> 8) % 16 := by
  have h : (0x0F00 : Nat) = 15 <<< 8 := rfl
  rw [h, shiftMask, and_mask_15']

lemma maskF0_shift (x : Nat) : (0x00F0 &&& x) >>> 4 = (x >>> 4) % 16 := by
  have h : (0x00F0 : Nat) = 15 <<< 4 := rfl
  rw [h, shiftMask, and_mask_15']

lemma shiftRight8_eq (x : Nat) : x >>> 8 = x / 256 := by
  rw [Nat.shiftRight_eq_div_pow]

lemma shiftRight4_eq (x : Nat) : x >>> 4 = x / 16 := by
  rw [Nat.shiftRight_eq_div_pow]


/-! Claim theorems. -/

/-- C1: the claim says executing Fx0A blocks until a key press and stores
the key in Vx, i.e. that the instruction is implemented.  In the source the
Fx0A arm of `cycle` is `todo!("Waiting for input")`, which panics: on a
running machine whose ROM starts with the instruction F00A, `cycle`
terminates with the todo panic instead of completing the instruction. -/
theorem C1_fx0a_unimplemented :
    ((init_chip8 (some [0xF0, 0x0A])).handle_message Chip8Message.ExecStart).cycle =
      Except.error (r"not yet implemented: Waiting for input") := rfl

/-- C3: the claim says 8xy4 sets VF to 1 on overflow and to 0 otherwise, so
with Vx = 1, Vy = 1 the result must be Vx = 2, VF = 0 regardless of VF's
prior value.  The source only ever sets VF to 1 (`if res > 255`) and never
clears it: executing 8014 from V0 = 1, V1 = 1, VF = 1 leaves VF = 1. -/
theorem C3_8xy4_vf_not_cleared :
    Except.map (fun c => (c.vS 0, c.vS 15))
      (({ (init_chip8 (some [0x80, 0x14])).handle_message Chip8Message.ExecStart with
          vS := fun rg => if rg = 0 then 1 else if rg = 1 then 1 else
            if rg = 15 then 1 else 0 } : Chip8).cycle) =
      Except.ok (2, 1) := rfl

/-- C4: a `LoadROM` control message overwrites the program region at 0x200
with the ROM bytes truncated to 3584 bytes, resets the program counter to
0x200, and leaves the registers, index register, stack pointer and the rest
of memory untouched — but it does NOT stop execution: the `running` flag is
left unchanged, contradicting the claim (and the source's own comment
`// Stop exec, Load ROM, sets pc to 0x200` on the enum variant). -/
theorem C4_loadrom_effect (c : Chip8) (rom : List Nat) :
    (c.handle_message (Chip8Message.LoadROM rom)).running = c.running ∧
    (c.handle_message (Chip8Message.LoadROM rom)).pc = 0x200 ∧
    (c.handle_message (Chip8Message.LoadROM rom)).vS = c.vS ∧
    (c.handle_message (Chip8Message.LoadROM rom)).i = c.i ∧
    (c.handle_message (Chip8Message.LoadROM rom)).sp = c.sp ∧
    (∀ j, 0x200 ≤ j →
      j < 0x200 + (if rom.length < 3584 then rom.length else 3584) →
      (c.handle_message (Chip8Message.LoadROM rom)).memory j = rom.getD (j - 0x200) 0) ∧
    (∀ j, j < 0x200 ∨
      0x200 + (if rom.length < 3584 then rom.length else 3584) ≤ j →
      (c.handle_message (Chip8Message.LoadROM rom)).memory j = c.memory j) := by
  refine ⟨rfl, rfl, rfl, rfl, rfl, ?_, ?_⟩
  · intro j h1 h2
    simp only [Chip8.handle_message, Chip8.load_rom, Chip8.load_bytes_at, Chip8.reset_pc]
    rw [if_pos ⟨h1, h2⟩]
  · intro j h
    simp only [Chip8.handle_message, Chip8.load_rom, Chip8.load_bytes_at, Chip8.reset_pc]
    rw [if_neg]
    rintro ⟨h1, h2⟩
    rcases h with h | h
    · omega
    · omega

/-- C4 witness: on a running machine, loading a one-byte ROM leaves
`running` true (execution is not stopped) while the program counter is
reset to 0x200. -/
theorem C4_witness :
    (({ Chip8.new with running := true } : Chip8).handle_message
        (Chip8Message.LoadROM [0xAB])).running = true ∧
    (({ Chip8.new with running := true } : Chip8).handle_message
        (Chip8Message.LoadROM [0xAB])).pc = 0x200 := by
  have h := C4_loadrom_effect { Chip8.new with running := true } [0xAB]
  exact ⟨h.1, h.2.1⟩

/-- C5: the claim says the unit multipliers are 1 (Hz), 10^6 (MHz) and
10^9 (GHz), so "1.76MHz" yields 1760000 Hz and a tick of 1/1760000 s.  The
source multiplies by 1000 for `mhz` and 1000*1000 for `ghz`, so "1.76MHz"
yields 1760 Hz and a tick interval of 1/1760 s; an unknown unit is still a
fatal startup error (a panic). -/
theorem C5_wrong_unit_multipliers :
    input_to_hertz (r"1.76MHz") = Except.ok 1760 ∧
    hz_to_secs (r"1.76MHz") = Except.ok ((1 : ℚ) / 1760) ∧
    input_to_hertz (r"2GHz") = Except.ok 2000000 ∧
    input_to_hertz (r"1.76kHz") =
      Except.error (r"Chip8 Frequency must end with GHz, MHz, or Hz") := by
  have hfind : findNumber (String.data (r"1.76MHz")) =
      some ([Char.ofNat 49], [Char.ofNat 55, Char.ofNat 54],
        [Char.ofNat 77, Char.ofNat 72, Char.ofNat 122]) := by decide
  have hlow : asciiLower [Char.ofNat 77, Char.ofNat 72, Char.ofNat 122] = (r"mhz").data := by
    decide
  have hne1 : ((r"mhz").data = (r"ghz").data) = False := eq_false (by decide)
  have hd1 : digitsToNat [Char.ofNat 49] = 1 := by decide
  have hd2 : digitsToNat [Char.ofNat 55, Char.ofNat 54] = 76 := by decide
  have hmain : input_to_hertz (r"1.76MHz") = Except.ok 1760 := by
    simp only [input_to_hertz, hfind, hlow, hne1, if_false, if_pos rfl, ok_bind, numberVal,
      hd1, hd2, List.length_cons, List.length_nil]
    norm_num
    decide
  have hfind2 : findNumber (String.data (r"2GHz")) =
      some ([Char.ofNat 50], [], [Char.ofNat 71, Char.ofNat 72, Char.ofNat 122]) := by decide
  have hlow2 : asciiLower [Char.ofNat 71, Char.ofNat 72, Char.ofNat 122] = (r"ghz").data := by
    decide
  have hd3 : digitsToNat [Char.ofNat 50] = 2 := by decide
  have hd4 : digitsToNat ([] : List Char) = 0 := by decide
  have hmain2 : input_to_hertz (r"2GHz") = Except.ok 2000000 := by
    simp only [input_to_hertz, hfind2, hlow2, if_pos rfl, ok_bind, numberVal,
      hd3, hd4, List.length_nil]
    norm_num
    decide
  have hfind3 : findNumber (String.data (r"1.76kHz")) =
      some ([Char.ofNat 49], [Char.ofNat 55, Char.ofNat 54],
        [Char.ofNat 107, Char.ofNat 72, Char.ofNat 122]) := by decide
  have hlow3 : asciiLower [Char.ofNat 107, Char.ofNat 72, Char.ofNat 122] =
      [Char.ofNat 107, Char.ofNat 104, Char.ofNat 122] := by decide
  have hne2 : ([Char.ofNat 107, Char.ofNat 104, Char.ofNat 122] = (r"ghz").data) = False :=
    eq_false (by decide)
  have hne3 : ([Char.ofNat 107, Char.ofNat 104, Char.ofNat 122] = (r"mhz").data) = False :=
    eq_false (by decide)
  have hne4 : ([Char.ofNat 107, Char.ofNat 104, Char.ofNat 122] = (r"hz").data) = False :=
    eq_false (by decide)
  have hmain3 : input_to_hertz (r"1.76kHz") =
      Except.error (r"Chip8 Frequency must end with GHz, MHz, or Hz") := by
    simp only [input_to_hertz, hfind3, hlow3, hne2, hne3, hne4, if_false, error_bind]
  refine ⟨hmain, ?_, hmain2, hmain3⟩
  rw [hz_to_secs, hmain]
  show Except.ok (hertz_to_seconds 1760) = _
  rw [hertz_to_seconds]
  norm_num

/-- C6: the claim says each 60Hz tick decrements the counter, so set(10)
followed by 10 message-free ticks then get() returns 0.  In the source the
loop body first awaits the tick and then blocks in a `select!` that waits
for one mailbox message, so an iteration (and its decrement) happens once
per received message, not per tick: after set(10) the value drops to 9, and
a later get() replies 9 (and then decrements to 8), no matter how many
ticks passed in between. -/
theorem C6_counter_decrements_per_message :
    run_counter 0 [CounterMessage.SetCount 10, CounterMessage.GetCount] = (8, [9]) := rfl

/-- Once the `run_fuse` receiver is gone, no event brings it back: sends
fail and are dropped, and there is no receiver left to step. -/
lemma fuseRun_dead (es : List FuseEvent) :
    ∀ s : FuseState, s.receiverAlive = false → (fuseRun s es).receiverAlive = false := by
  induction es with
  | nil => intro s h; exact h
  | cons e t ih =>
    intro s h
    have hstep : (fuseStep s e).receiverAlive = false := by
      cases e <;> simp [fuseStep, fuseSend, fuseRecvStep, h]
    exact ih _ hstep

/-- C8 counterexample: the claim says that once `blow()` is called,
`alive()` returns false for every subsequent call.  But the capacity-1
broadcast channel evicts an unread value on the next send, and `alive()`
itself sends an `Alive` into that channel: in the schedule blow(),
alive(), then two `recv()` steps of `run_fuse` (which see `Err(Lagged)` —
discarded by `_ => continue` — and then `Ok(Alive)`), the `Blow` is lost,
the loop never breaks, and a subsequent `alive()` still returns true. -/
theorem C8_counterexample :
    FuseHandle.alive (fuseRun FuseState.init
      [FuseEvent.blow, FuseEvent.aliveProbe, FuseEvent.recvStep, FuseEvent.recvStep]) =
      true := rfl

/-- C8 amended: once the `run_fuse` task actually receives the `Blow` —
it is delivered as `Ok(Blow)` rather than evicted by a concurrent send —
the loop breaks and the channel's only receiver is dropped, so `alive()`
returns false for every subsequent call from any holder of a handle,
whatever events follow: the processed blow is monotonic and
irreversible. -/
theorem C8_blow_processed_terminal (s : FuseState) (es : List FuseEvent)
    (h1 : s.unread = 1) (h2 : s.lastMsg = some FuseMessage.Blow)
    (h3 : s.receiverAlive = true) :
    FuseHandle.alive (fuseRun (fuseStep s FuseEvent.recvStep) es) = false := by
  have hstep : (fuseStep s FuseEvent.recvStep).receiverAlive = false := by
    simp [fuseStep, fuseRecvStep, h1, h2, h3]
  exact fuseRun_dead es _ hstep

/-- C8 witness: a blow that is delivered before any other send kills the
fuse for good — even an alive() probe evicting values afterwards never
revives it. -/
theorem C8_witness :
    FuseHandle.alive (fuseRun (fuseStep (fuseRun FuseState.init [FuseEvent.blow])
      FuseEvent.recvStep) [FuseEvent.aliveProbe, FuseEvent.recvStep]) = false :=
  C8_blow_processed_terminal (fuseRun FuseState.init [FuseEvent.blow])
    [FuseEvent.aliveProbe, FuseEvent.recvStep] rfl rfl rfl

/-- C10: `ret` (opcode 00EE) sets `pc` from the stack and then performs
`sp -= 2` on the `u8` stack pointer with no guard: with `sp = 0` (no call
outstanding) the subtraction underflows and panics.  The failure is
reachable from a ROM whose first instruction is 00EE. -/
theorem C10_ret_underflows (c : Chip8) (hrun : c.running = true) (hsp : c.sp = 0)
    (hpc : c.pc = 0x200) (h0 : c.memory 0x200 = 0x00) (h1 : c.memory 0x201 = 0xEE) :
    c.cycle = Except.error (r"attempt to subtract with overflow") := by
  simp [Chip8.cycle, Chip8.execute, Chip8.ret, Chip8.sp_addr, rdMem, chkSub,
    ok_bind, error_bind, hrun, hpc, hsp, h0, h1]

/-- C10 witness: a machine that has just loaded the ROM `00 EE` and been
started underflows the stack pointer on its very first cycle. -/
theorem C10_witness :
    ((init_chip8 (some [0x00, 0xEE])).handle_message Chip8Message.ExecStart).cycle =
      Except.error (r"attempt to subtract with overflow") :=
  C10_ret_underflows _ rfl rfl rfl rfl rfl


/-- C9: executing a 2nnn call mutates the 4096-byte memory array itself:
`sp` is incremented by 2 and the current pc's high and low bytes are
written to `memory[sp]` and `memory[sp + 1]` — for a fresh machine
(`sp = 0`) that is addresses 2 and 3 in the interpreter-reserved low
memory, not a separate 16-entry call stack — and the only depth limit is
the `u8` stack pointer itself (the hypothesis `sp + 2 ≤ 255` allows far
more than 16 nested levels). -/
theorem C9_call_pushes_into_ram (c : Chip8) (hrun : c.running = true)
    (hpc : c.pc < 0x0FFF)
    (hh1 : 0x20 ≤ c.memory c.pc) (hh2 : c.memory c.pc < 0x30)
    (hlo : c.memory (c.pc + 1) < 256) (hsp : c.sp + 2 ≤ 255)
    (haddr : 2 ≤ (c.memory c.pc % 16) * 256 + c.memory (c.pc + 1)) :
    ∃ c2, c.cycle = Except.ok c2 ∧
      c2.sp = c.sp + 2 ∧
      c2.memory (c.sp + 2) = c.pc / 256 % 256 ∧
      c2.memory (c.sp + 3) = c.pc % 256 ∧
      c2.pc = (c.memory c.pc % 16) * 256 + c.memory (c.pc + 1) ∧
      (∀ j, j ≠ c.sp + 2 → j ≠ c.sp + 3 → c2.memory j = c.memory j) ∧
      c2.vS = c.vS ∧ c2.i = c.i ∧ c2.running = c.running := by
  have e1 : (c.pc ≥ 4096) = False := eq_false (by omega)
  have e2 : (c.pc = 4095) = False := eq_false (by omega)
  have hop : c.memory c.pc <<< 8 ||| c.memory (c.pc + 1) =
      c.memory c.pc * 256 + c.memory (c.pc + 1) := lor256 _ _ hlo
  have e3 : (c.memory c.pc * 256 + c.memory (c.pc + 1) = 224) = False := eq_false (by omega)
  have e4 : (c.memory c.pc * 256 + c.memory (c.pc + 1) = 238) = False := eq_false (by omega)
  have e5 : (4096 ≤ c.memory c.pc * 256 + c.memory (c.pc + 1) ∧
      c.memory c.pc * 256 + c.memory (c.pc + 1) ≤ 8191) = False := eq_false (by omega)
  have e6 : (8192 ≤ c.memory c.pc * 256 + c.memory (c.pc + 1) ∧
      c.memory c.pc * 256 + c.memory (c.pc + 1) ≤ 12287) = True :=
    eq_true (by constructor <;> omega)
  have e7 : (c.sp + 2 ≤ 255) = True := eq_true hsp
  have e8 : (c.sp + 2 < 4096) = True := eq_true (by omega)
  have e9 : (c.sp + 2 + 1 < 4096) = True := eq_true (by omega)
  have e10 : (2 ≤ (c.memory c.pc * 256 + c.memory (c.pc + 1)) % 4096) = True :=
    eq_true (by omega)
  have e11 : ((c.memory c.pc * 256 + c.memory (c.pc + 1)) % 4096 - 2 + 2 ≤ 65535) = True :=
    eq_true (by omega)
  have e12 : (c.memory c.pc * 256 + c.memory (c.pc + 1)) % 4096 - 2 + 2 =
      c.memory c.pc % 16 * 256 + c.memory (c.pc + 1) := by omega
  have e13 : c.sp + 2 + 1 = c.sp + 3 := by omega
  have e14 : (c.memory c.pc % 16 * 256 + c.memory (c.pc + 1) ≤ 65535) = True :=
    eq_true (by omega)
  have maskdiv : (65280 &&& c.pc) / 256 = c.pc / 256 % 256 := by
    rw [← shiftRight8_eq, maskFF00_shift, shiftRight8_eq]
  have key : c.cycle = Except.ok { c with
      sp := c.sp + 2,
      memory := setMem (setMem c.memory (c.sp + 2) (c.pc / 256 % 256)) (c.sp + 3) (c.pc % 256),
      pc := (c.memory c.pc % 16) * 256 + c.memory (c.pc + 1) } := by
    simp only [Chip8.cycle, Chip8.execute, chkAddU8, chkAddU16, chkSub, wrMem,
      ok_bind, error_bind, hrun, Bool.not_true, Bool.false_eq_true, if_false, if_true,
      e1, e2, hop, e3, e4, e5, e6, e7, e8, e9, e10, e11, e12, e13, e14,
      and_mask_4095', and_mask_255, maskFF00_shift, shiftRight8_eq, maskdiv]
  refine ⟨_, key, rfl, ?_, ?_, rfl, ?_, rfl, rfl, rfl⟩
  · show setMem (setMem c.memory (c.sp + 2) (c.pc / 256 % 256)) (c.sp + 3) (c.pc % 256)
      (c.sp + 2) = c.pc / 256 % 256
    rw [setMem, if_neg (by omega), setMem, if_pos rfl]
  · show setMem (setMem c.memory (c.sp + 2) (c.pc / 256 % 256)) (c.sp + 3) (c.pc % 256)
      (c.sp + 3) = c.pc % 256
    rw [setMem, if_pos rfl]
  · intro j hj1 hj2
    show setMem (setMem c.memory (c.sp + 2) (c.pc / 256 % 256)) (c.sp + 3) (c.pc % 256) j =
      c.memory j
    rw [setMem, if_neg hj2, setMem, if_neg hj1]

/-- C9 witness: a machine with the ROM `23 45` (call 0x345) and `sp = 40`
— already 20 call levels deep, past any 16-level bound — pushes the return
address bytes into `memory[42]`/`memory[43]` and jumps to 0x345. -/
theorem C9_witness :
    ∃ c2, ({ (init_chip8 (some [0x23, 0x45])).handle_message Chip8Message.ExecStart with
        sp := 40 } : Chip8).cycle = Except.ok c2 ∧
      c2.sp = 42 ∧ c2.memory 42 = 2 ∧ c2.memory 43 = 0 ∧ c2.pc = 0x345 := by
  obtain ⟨c2, hc, h1, h2, h3, h4, -⟩ :=
    C9_call_pushes_into_ram
      { (init_chip8 (some [0x23, 0x45])).handle_message Chip8Message.ExecStart with sp := 40 }
      rfl (by decide) (by decide) (by decide) (by decide) (by decide) (by decide)
  exact ⟨c2, hc, h1, h2, h3, h4⟩


/-- C2 counterexample: the claim predicts full per-pixel wraparound: drawing
the one-byte sprite FF at Vx = 60 on the 64-wide screen should light pixel
((60 + 4) % 64, 0) = (0, 0), i.e. leave it old XOR bit = !false = true.
The code instead stops the column loop at the right screen edge, so pixel
(0, 0) stays false. -/
theorem C2_counterexample :
    (({ Chip8.new with running := true } : Chip8).draw 60 0 [255]).video 0 0 = false ∧
    ({ Chip8.new with running := true } : Chip8).video 0 0 = false ∧
    (60 + 4) % 64 = 0 ∧ Nat.testBit 255 (7 - 4) = true :=
  ⟨rfl, rfl, rfl, rfl⟩

/-- C2 amended: Dxyn wraps the START coordinates modulo the screen size and
XORs sprite bits into the screen, but it CLIPS at the right and bottom
edges instead of wrapping every pixel: only columns with tx + col < sx and
rows with ty + row < sy are drawn.  Within that region new pixel = old
pixel XOR sprite bit (MSB first), everything else is untouched, and VF is
set exactly once — to 1 iff some drawn bit hit a lit pixel, else 0. -/
theorem C2_amended (c : Chip8) (vx vy : Nat) (bytes : List Nat) (sx sy : Nat)
    (hrun : c.running = true) (hs : c.screen.get_screen_size = (sx, sy)) :
    (∀ px py, (c.draw vx vy bytes).video px py =
       if vy % sy ≤ py ∧ py < vy % sy + bytes.length ∧ py < sy ∧
          vx % sx ≤ px ∧ px < vx % sx + 8 ∧ px < sx ∧
          Nat.testBit (bytes.getD (py - vy % sy) 0) (7 - (px - vx % sx)) = true
       then !(c.video px py) else c.video px py) ∧
    ((c.draw vx vy bytes).vS 15 = 1 ↔
       (∃ rr cc, rr < bytes.length ∧ vy % sy + rr < sy ∧ cc < 8 ∧ vx % sx + cc < sx ∧
          Nat.testBit (bytes.getD rr 0) (7 - cc) = true ∧
          c.video (vx % sx + cc) (vy % sy + rr) = true)) ∧
    ((c.draw vx vy bytes).vS 15 = 0 ↔
       ¬ (∃ rr cc, rr < bytes.length ∧ vy % sy + rr < sy ∧ cc < 8 ∧ vx % sx + cc < sx ∧
          Nat.testBit (bytes.getD rr 0) (7 - cc) = true ∧
          c.video (vx % sx + cc) (vy % sy + rr) = true)) ∧
    (∀ rg, rg ≠ 15 → (c.draw vx vy bytes).vS rg = c.vS rg) := by
  obtain ⟨h1, h2, h3, h4, -⟩ := draw_spec c vx vy bytes sx sy hrun hs
  exact ⟨fun px py => by rw [h1], h2, h3, h4⟩

/-- C2 witness: drawing FF at (60, 0) on the small screen lights the last
visible column pixel (63, 0) and reports no collision on the empty
screen. -/
theorem C2_witness :
    (({ Chip8.new with running := true } : Chip8).draw 60 0 [255]).video 63 0 = true ∧
    (({ Chip8.new with running := true } : Chip8).draw 60 0 [255]).vS 15 = 0 := by
  have h := C2_amended { Chip8.new with running := true } 60 0 [255] 64 32 rfl rfl
  constructor
  · have hp := h.1 63 0
    rw [hp]
    rfl
  · apply h.2.2.1.mpr
    rintro ⟨rr, cc, h1, h2, h3, h4, hb, hv⟩
    simp [Chip8.new] at hv

/-- C7 counterexample: the claim says the second identical draw always
reports VF = 1, for every sprite at a fixed non-wrapping position.  For a
sprite with no lit bits (byte 00) the first draw sets no pixel, so the
second draw finds no collision and VF ends up 0, not 1. -/
theorem C7_counterexample :
    ((({ Chip8.new with running := true } : Chip8).draw 0 0 [0]).draw 0 0 [0]).vS 15 = 0 :=
  rfl

/-- C7 amended: drawing the same sprite twice at the same fixed,
non-wrapping position restores every pixel to its pre-first-draw value (in
particular every pixel the first draw set becomes unlit again), and the
second draw sets VF to 1 exactly when the first draw lit at least one
pixel — i.e. some sprite bit targeted a pixel that was unlit before; if no
sprite bit did (an all-zero sprite, or a fully lit target area), VF is
0. -/
theorem C7_amended (c : Chip8) (vx vy : Nat) (bytes : List Nat) (sx sy : Nat)
    (hrun : c.running = true) (hs : c.screen.get_screen_size = (sx, sy))
    (hx : vx + 8 ≤ sx) (hy : vy < sy) (hylen : vy + bytes.length ≤ sy) :
    (∀ px py, ((c.draw vx vy bytes).draw vx vy bytes).video px py = c.video px py) ∧
    ((∃ rr cc, rr < bytes.length ∧ cc < 8 ∧
        Nat.testBit (bytes.getD rr 0) (7 - cc) = true ∧
        c.video (vx + cc) (vy + rr) = false) →
      ((c.draw vx vy bytes).draw vx vy bytes).vS 15 = 1) ∧
    ((¬ ∃ rr cc, rr < bytes.length ∧ cc < 8 ∧
        Nat.testBit (bytes.getD rr 0) (7 - cc) = true ∧
        c.video (vx + cc) (vy + rr) = false) →
      ((c.draw vx vy bytes).draw vx vy bytes).vS 15 = 0) := by
  obtain ⟨hp1, hvf11, hvf10, hreg1, hmem1, hpc1, hsp1, hi1, hrn1, hscr1⟩ :=
    draw_spec c vx vy bytes sx sy hrun hs
  have hrn1' : (c.draw vx vy bytes).running = true := by rw [hrn1, hrun]
  have hs1 : (c.draw vx vy bytes).screen.get_screen_size = (sx, sy) := by rw [hscr1, hs]
  obtain ⟨hp2, hvf21, hvf20, hreg2, -⟩ :=
    draw_spec (c.draw vx vy bytes) vx vy bytes sx sy hrn1' hs1
  have hvx : vx % sx = vx := Nat.mod_eq_of_lt (by omega)
  have hvy : vy % sy = vy := Nat.mod_eq_of_lt hy
  rw [hvx, hvy] at hp1 hvf11 hvf10 hp2 hvf21 hvf20
  have hbridge : ∀ rr cc, rr < bytes.length → cc < 8 →
      Nat.testBit (bytes.getD rr 0) (7 - cc) = true →
      (c.draw vx vy bytes).video (vx + cc) (vy + rr) = !(c.video (vx + cc) (vy + rr)) := by
    intro rr cc h1 h2 hb
    simp only [hp1]
    rw [if_pos]
    refine ⟨by omega, by omega, by omega, by omega, by omega, by omega, ?_⟩
    have e1 : vy + rr - vy = rr := by omega
    have e2 : vx + cc - vx = cc := by omega
    rw [e1, e2]
    exact hb
  refine ⟨?_, ?_, ?_⟩
  · intro px py
    simp only [hp2]
    by_cases hcnd : vy ≤ py ∧ py < vy + bytes.length ∧ py < sy ∧
        vx ≤ px ∧ px < vx + 8 ∧ px < sx ∧
        Nat.testBit (bytes.getD (py - vy) 0) (7 - (px - vx)) = true
    · rw [if_pos hcnd]
      simp only [hp1]
      rw [if_pos hcnd, Bool.not_not]
    · rw [if_neg hcnd]
      simp only [hp1]
      rw [if_neg hcnd]
  · rintro ⟨rr, cc, h1, h2, hb, hv⟩
    apply hvf21.mpr
    refine ⟨rr, cc, h1, by omega, h2, by omega, hb, ?_⟩
    rw [hbridge rr cc h1 h2 hb, hv]
    rfl
  · intro hne
    apply hvf20.mpr
    rintro ⟨rr, cc, h1, h2v, h2, h3, hb, hv⟩
    apply hne
    refine ⟨rr, cc, h1, h2, hb, ?_⟩
    rw [hbridge rr cc h1 h2 hb] at hv
    rcases hvv : c.video (vx + cc) (vy + rr)
    · rfl
    · rw [hvv] at hv
      simp at hv

/-- C7 witness: drawing the sprite A5 twice at (3, 5) on an empty screen
restores pixel (3, 5) and the second draw reports collision VF = 1. -/
theorem C7_witness :
    ((({ Chip8.new with running := true } : Chip8).draw 3 5 [0xA5]).draw 3 5 [0xA5]).video 3 5 =
      ({ Chip8.new with running := true } : Chip8).video 3 5 ∧
    ((({ Chip8.new with running := true } : Chip8).draw 3 5 [0xA5]).draw 3 5 [0xA5]).vS 15 = 1 := by
  have h := C7_amended { Chip8.new with running := true } 3 5 [0xA5] 64 32 rfl rfl
    (by omega) (by omega) (by decide)
  exact ⟨h.1 3 5, h.2.1 ⟨0, 0, by decide, by decide, by decide, rfl⟩⟩

end RustyChips
